import Mathlib

/-!
Verification of the SNL league-table bot (`bot.py`) against its
natural-language specification.

The development shallowly embeds the program: pure functions of the source
become Lean functions over `Nat`/`Int`/`String`/`List`; the orchestration in
`main` becomes a function over an explicit environment record carrying the
outcomes of the external collaborators (fetcher, publisher, state file).
Machine-level concerns do not arise (Python integers are unbounded).
-/

/-! ## Decimal rendering (models Python string formatting of integers)

Python renders integers in f-strings as standard decimal text
(`f"{iso_year}"`, `f"{iso_week:02d}"`).  We embed that formatting as an
executable decimal printer: `natDecAux` emits base-10 digits little-endian
with a fuel argument (fuel ≥ n suffices), `natDec`/`intDec` render `Nat`/`Int`
as Python's `str` does, and `pad2` renders `{n:02d}` (left zero-pad to
width 2; the sign counts toward the width, as in Python). -/

def digitChar : Nat → Char
  | 0 => '0' | 1 => '1' | 2 => '2' | 3 => '3' | 4 => '4'
  | 5 => '5' | 6 => '6' | 7 => '7' | 8 => '8' | 9 => '9'
  | _ => '*'

def digitVal (c : Char) : Nat := c.toNat - 48

def natDecAux : Nat → Nat → List Char
  | 0, _ => []
  | _ + 1, 0 => []
  | fuel + 1, n + 1 => digitChar ((n + 1) % 10) :: natDecAux fuel ((n + 1) / 10)

def natDec (n : Nat) : String := if n = 0 then "0" else ⟨(natDecAux n n).reverse⟩

def intDec (n : Int) : String :=
  if n < 0 then "-" ++ natDec (-n).toNat else natDec n.toNat

def pad2 (n : Int) : String :=
  if 0 ≤ n ∧ n < 10 then "0" ++ intDec n else intDec n

/-- Parser used only to prove the decimal printers injective: value of a
digit string, most significant digit first. -/
def parseNatChars (l : List Char) : Nat :=
  l.foldl (fun a c => 10 * a + digitVal c) 0

/-- Signed variant: models Python `int()` on strings matching `-?\d+`. -/
def parseIntChars (l : List Char) : Int :=
  match l with
  | '-' :: rest => -(parseNatChars rest : Int)
  | _ => (parseNatChars l : Int)

/-! ## Timestamps and the proleptic Gregorian / ISO week calendar

`bot.py` calls `datetime.now(UK_TZ)` once per run and passes the resulting
wall-clock timestamp around; we embed such a timestamp as a record of its
local calendar fields.  `now.isocalendar()` and `now.weekday()` are the
CPython `datetime` algorithms; they are embedded below following the CPython
source (`_days_before_year`, `_ymd2ord`, `_isoweek1monday`, `isocalendar`).
Python `//` and `%` on a positive divisor are floor division and the
nonnegative remainder, which coincide with `Int.ediv`/`Int.emod`. -/

structure DT where
  year : Int
  month : Int
  day : Int
  hour : Int
  minute : Int
deriving DecidableEq

def isLeapYear (y : Int) : Bool :=
  y.emod 4 == 0 && (y.emod 100 != 0 || y.emod 400 == 0)

def daysBeforeMonthTable (m : Int) : Int :=
  match m.toNat with
  | 1 => 0 | 2 => 31 | 3 => 59 | 4 => 90 | 5 => 120 | 6 => 151
  | 7 => 181 | 8 => 212 | 9 => 243 | 10 => 273 | 11 => 304 | 12 => 334
  | _ => 0

def daysBeforeMonth (y m : Int) : Int :=
  daysBeforeMonthTable m + (if 2 < m ∧ isLeapYear y then 1 else 0)

def daysBeforeYear (y : Int) : Int :=
  let z := y - 1
  z * 365 + z.ediv 4 - z.ediv 100 + z.ediv 400

def ymd2ord (y m d : Int) : Int :=
  daysBeforeYear y + daysBeforeMonth y m + d

def isoweek1monday (y : Int) : Int :=
  let firstday := ymd2ord y 1 1
  let firstweekday := (firstday + 6).emod 7
  let week1monday := firstday - firstweekday
  if 3 < firstweekday then week1monday + 7 else week1monday

/-- ISO year and ISO week number of a date, per CPython `date.isocalendar`. -/
def isocalendarYW (y m d : Int) : Int × Int :=
  let today := ymd2ord y m d
  let week := (today - isoweek1monday y).ediv 7
  if week < 0 then
    (y - 1, (today - isoweek1monday (y - 1)).ediv 7 + 1)
  else if 52 ≤ week ∧ isoweek1monday (y + 1) ≤ today then
    (y + 1, 1)
  else
    (y, week + 1)

def isoYW (t : DT) : Int × Int := isocalendarYW t.year t.month t.day

/-- CPython `date.weekday()`: Monday = 0 … Sunday = 6. -/
def weekdayDT (t : DT) : Int := (ymd2ord t.year t.month t.day + 6).emod 7

/-- `current_iso_week_key(now)`: the string `f"{iso_year}-W{iso_week:02d}"`. -/
def current_iso_week_key (now : DT) : String :=
  intDec (isoYW now).1 ++ "-W" ++ pad2 (isoYW now).2

/-! ## Posting window (Period Gate) -/

def POST_DAY : Int := 0

def POST_HOUR : Int := 18

def POST_MINUTE_MAX : Int := 10

/-- `should_post_now(now)` from `bot.py`: true only during Monday
18:00–18:10 of the supplied local timestamp. -/
def should_post_now (now : DT) : Bool :=
  if weekdayDT now ≠ POST_DAY then false
  else if now.hour ≠ POST_HOUR then false
  else if ¬(0 ≤ now.minute ∧ now.minute ≤ POST_MINUTE_MAX) then false
  else true

/-- The spec's weekly window, stated from its words: configured day-of-week
(Monday), configured hour (18), minute within the inclusive range 0–10. -/
def inWeeklyWindow (t : DT) : Prop :=
  weekdayDT t = POST_DAY ∧ t.hour = POST_HOUR ∧ 0 ≤ t.minute ∧ t.minute ≤ POST_MINUTE_MAX

/-! ## String helpers for the Table Extractor

Cell texts arrive at the extractor already whitespace-normalized (the
`norm(td.get_text(" "))` step); the extractor is embedded as a function of
the per-row cell-text lists, which quantifies over every possible input
markup.  Python's `str.strip`, `str.lower`, `str.replace("+", "")` and the
substring test `"cap" in t` are embedded below over the character lists
(ASCII-faithful, which covers what the heuristics inspect). -/

def isSpaceChar (c : Char) : Bool :=
  c == ' ' || c == '\t' || c == '\n' || c == '\r' || c == '\x0b' || c == '\x0c'

def strTrim (s : String) : String :=
  ⟨((s.data.dropWhile isSpaceChar).reverse.dropWhile isSpaceChar).reverse⟩

def strLower (s : String) : String := ⟨s.data.map Char.toLower⟩

/-- Python `x.replace("+", "")`: removes every `+`, wherever it occurs. -/
def stripPlus (s : String) : String := ⟨s.data.filter (fun c => c ≠ '+')⟩

/-- `re.fullmatch(r"-?\d+", x)`: an optional minus then one or more digits. -/
def matchesIntLit (l : List Char) : Bool :=
  match l with
  | '-' :: rest => !rest.isEmpty && rest.all Char.isDigit
  | _ => !l.isEmpty && l.all Char.isDigit

/-- `needle` is a leading segment of `hay`. -/
def charsLead (needle hay : List Char) : Bool :=
  match needle, hay with
  | [], _ => true
  | _ :: _, [] => false
  | a :: p, b :: l => a == b && charsLead p l

/-- Python's substring containment `needle in hay`. -/
def charsContain (needle : List Char) : List Char → Bool
  | [] => charsLead needle []
  | c :: rest => charsLead needle (c :: rest) || charsContain needle rest

/-- `to_int` from `scrape_snl_table`: remove every `+`, strip whitespace,
then accept exactly the strings matching `-?\d+`. -/
def to_int (x : String) : Option Int :=
  let x := strTrim (stripPlus x)
  if matchesIntLit x.data then some (parseIntChars x.data) else none

/-! ## The Table Extractor -/

structure Row where
  pos : Option Int
  team : String
  gp : Option Int
  pts : Option Int
  raw : List String
deriving DecidableEq

/-- Best-effort parse of one table row from its normalized cell texts,
per the body of the `for tr in tbody.find_all("tr")` loop. -/
def parseRow (cells : List String) : Row :=
  let pos := to_int (cells.getD 0 "")
  let team := cells.getD 1 ""
  let gp := if cells.length > 2 then to_int (cells.getD 2 "") else none
  let ints := cells.map to_int
  let intsClean := ints.filterMap id
  let pts :=
    if 2 ≤ intsClean.length then intsClean.get? (intsClean.length - 2)
    else intsClean.getLast?
  ⟨pos, team, gp, pts, cells⟩

/-- The row-collection loop: skip rows with fewer than 3 cells, parse the
rest, retain only rows with a truthy team name and a parsed position. -/
def extractRows (trs : List (List String)) : List Row :=
  trs.filterMap fun cells =>
    if cells.length < 3 then none
    else if (parseRow cells).team ≠ "" ∧ (parseRow cells).pos ≠ none then
      some (parseRow cells)
    else none

def sortKeyRow (r : Row) : Int := r.pos.getD 999

/-- Insert into an ascending list, before the first strictly greater key. -/
def insertRow (r : Row) : List Row → List Row
  | [] => [r]
  | x :: xs => if sortKeyRow r ≤ sortKeyRow x then r :: x :: xs else x :: insertRow r xs

/-- Python's `rows.sort(key=...)` is a stable ascending sort; a stable
ascending sort of a list is unique, and this insertion sort computes it. -/
def sortRows (l : List Row) : List Row := l.foldr insertRow []

def capsPred (r : Row) : Bool := charsContain "cap".data (strLower r.team).data

/-- `scrape_snl_table`, from the point where the page markup has been reduced
to the optional first `<table>`'s rows of normalized cell texts (`none`
models a page with no table).  Returns the sorted standings and the first
row of the *sorted* list whose lowered team name contains `"cap"`. -/
def scrape_snl_table (table : Option (List (List String))) : List Row × Option Row :=
  match table with
  | none => ([], none)
  | some trs =>
    let rows := sortRows (extractRows trs)
    let caps_row := rows.find? capsPred
    (rows, caps_row)

/-! ## The Formatter -/

def dayNameTable (w : Int) : String :=
  match w.toNat with
  | 0 => "Mon" | 1 => "Tue" | 2 => "Wed" | 3 => "Thu"
  | 4 => "Fri" | 5 => "Sat" | 6 => "Sun" | _ => ""

def monthNameTable (m : Int) : String :=
  match m.toNat with
  | 1 => "Jan" | 2 => "Feb" | 3 => "Mar" | 4 => "Apr" | 5 => "May" | 6 => "Jun"
  | 7 => "Jul" | 8 => "Aug" | 9 => "Sep" | 10 => "Oct" | 11 => "Nov" | 12 => "Dec"
  | _ => ""

/-- `f"{now:%a %d %b %Y, %H:%M}"`: abbreviated weekday, zero-padded day,
abbreviated month, year, then zero-padded hour and minute. -/
def strftimeAsOf (t : DT) : String :=
  dayNameTable (weekdayDT t) ++ " " ++ pad2 t.day ++ " " ++ monthNameTable t.month
    ++ " " ++ intDec t.year ++ ", " ++ pad2 t.hour ++ ":" ++ pad2 t.minute

/-- Python prints `None` for an absent optional int inside an f-string. -/
def optIntRepr (o : Option Int) : String :=
  match o with
  | some n => intDec n
  | none => "None"

/-- The `title` built at the start of `format_weekly_post`. -/
def titleLine (week_key : String) (now : DT) : String :=
  "🏒 **SNL League Table — " ++ week_key ++ "**\n_As of " ++ strftimeAsOf now
    ++ " (UK time)_\n"

def capsLine (c : Row) : String :=
  "\n🟢 **Edinburgh Capitals:** Position **" ++ optIntRepr c.pos ++ "** — **"
    ++ optIntRepr c.pts ++ " pts** (GP " ++ optIntRepr c.gp ++ ")\n"

def rankLine (caps_row : Option Row) (r : Row) : String :=
  let marker := match caps_row with
    | some c => if r.team == c.team then "✅" else "•"
    | none => "•"
  marker ++ " " ++ optIntRepr r.pos ++ ". " ++ r.team ++ " — " ++ optIntRepr r.pts
    ++ " pts (GP " ++ optIntRepr r.gp ++ ")"

/-- `format_weekly_post(rows, caps_row, week_key)`; the `datetime.now(UK_TZ)`
it reads is passed in as `now`. -/
def format_weekly_post (rows : List Row) (caps_row : Option Row) (week_key : String)
    (now : DT) : String :=
  let title := titleLine week_key now
  if rows.isEmpty then title ++ "\nNo table data detected this week."
  else
    let title := title ++ (match caps_row with
      | some c => capsLine c
      | none => "\n🟡 **Edinburgh Capitals:** Not detected in the table this week.\n")
    let lines := (rows.take 10).map (rankLine caps_row)
    title ++ "\n" ++ String.intercalate "\n" lines

/-! ## The State Store

The state file is read through `json.load`.  A JSON document is embedded as
the inductive `Json`; the outcome of the read-and-parse step is the
function's input: `none` for a missing file, `some (.error ())` for content
that `open`/`json.load` raises on, `some (.ok j)` for content parsing to
`j`.  A parsed JSON object is carried as its key/value list with Python
`dict` lookup semantics (`lookupJ`). -/

inductive Json where
  | null
  | bool (b : Bool)
  | num (n : Int)
  | str (s : String)
  | arr (l : List Json)
  | obj (l : List (String × Json))

def lookupJ (l : List (String × Json)) (k : String) : Option Json :=
  match l with
  | [] => none
  | (k', v) :: rest => if k' == k then some v else lookupJ rest k

/-- Python `dict.setdefault(k, v)`: insert `(k, v)` at the end iff `k` is
absent. -/
def setdefaultJ (l : List (String × Json)) (k : String) (v : Json) :
    List (String × Json) :=
  if (lookupJ l k).isSome then l else l ++ [(k, v)]

/-- Python `d[k] = v`: overwrite in place if present, else append. -/
def setKeyJ (l : List (String × Json)) (k : String) (v : Json) :
    List (String × Json) :=
  match l with
  | [] => [(k, v)]
  | (k', v') :: rest =>
    if k' == k then (k', v) :: rest else (k', v') :: setKeyJ rest k v

def defaultStateJ : List (String × Json) := [("last_posted_week", Json.str "")]

/-- `load_state()`.  The `try` block covers only `open` and `json.load`; the
`state.setdefault(...)` call on line 59 of `bot.py` runs outside it, so a
successfully parsed document that is not a JSON object raises
`AttributeError` (modelled as `.error ()`), which propagates to the caller. -/
def load_state (file : Option (Except Unit Json)) :
    Except Unit (List (String × Json)) :=
  match file with
  | none => .ok defaultStateJ
  | some (.error _) => .ok defaultStateJ
  | some (.ok (.obj l)) => .ok (setdefaultJ l "last_posted_week" (Json.str ""))
  | some (.ok _) => .error ()

/-! ## Orchestration (`main`)

`main`'s effects are embedded over an environment carrying the current
timestamp, the state-file read outcome, the fetch-and-soup outcome (the
optional first table's cell texts, or a transport error), and the
publisher's response per message.  The run result records whether the run
aborted with an exception and what, if anything, was written to the state
file (`save_state` dumps the whole dict). -/

structure Env where
  now : DT
  stateFile : Option (Except Unit Json)
  fetch : Except Unit (Option (List (List String)))
  publish : String → Except Unit Unit

structure RunOut where
  result : Except Unit Unit
  saved : Option (List (String × Json))

/-- `state.get("last_posted_week") == week_key`: a Python `==` between the
stored JSON value and the key string; true only for an equal string. -/
def alreadyPosted (st : List (String × Json)) (week_key : String) : Bool :=
  match lookupJ st "last_posted_week" with
  | some (Json.str s) => s == week_key
  | _ => false

namespace Bot

/-- `main()`: gate on the window, load state, gate on the period key, then
scrape, format and publish inside the `try`; any failure re-raises and the
save is skipped.  The state write happens only after a successful publish. -/
def main (env : Env) : RunOut :=
  if should_post_now env.now = false then ⟨.ok (), none⟩
  else
    let week_key := current_iso_week_key env.now
    match load_state env.stateFile with
    | .error e => ⟨.error e, none⟩
    | .ok state =>
      if alreadyPosted state week_key then ⟨.ok (), none⟩
      else
        match env.fetch with
        | .error e => ⟨.error e, none⟩
        | .ok table =>
          let rc := scrape_snl_table table
          let msg := format_weekly_post rc.1 rc.2 week_key env.now
          match env.publish msg with
          | .error e => ⟨.error e, none⟩
          | .ok _ => ⟨.ok (), some (setKeyJ state "last_posted_week" (Json.str week_key))⟩

end Bot

/-! ## Spec-side definitions (for refinement comparison)

These definitions follow the specification's words, to be compared with the
ones translated from the source. -/

/-- From the spec's description of the points heuristic: the second-to-last
integer-parseable cell value when at least two exist, the sole one when
exactly one exists, absent when none does. -/
def specPoints (cells : List String) : Option Int :=
  let ints := cells.filterMap to_int
  if 2 ≤ ints.length then ints.get? (ints.length - 2)
  else if ints.length = 1 then ints.get? 0
  else none

/-- From the spec's description of the Highlighted Row: the first retained
row in extraction (pre-sort) order whose team name, lowered, contains the
target substring. -/
def specHighlightPreSort (table : Option (List (List String))) : Option Row :=
  match table with
  | none => none
  | some trs => (extractRows trs).find? capsPred

/-- From the spec's description of integer cell parsing: tolerant of a
single leading `+` sign, which is stripped; anything else must already
match `-?\d+`. -/
def spec_to_int_leading (x : String) : Option Int :=
  let x0 : String := match x.data with
    | '+' :: rest => ⟨rest⟩
    | _ => x
  let x1 := strTrim x0
  if matchesIntLit x1.data then some (parseIntChars x1.data) else none

/-- A state-file read outcome whose successfully parsed content, if any, is
a JSON object. -/
def stateFileWellShaped (fc : Option (Except Unit Json)) : Prop :=
  ∀ j, fc = some (.ok j) → ∃ l, j = Json.obj l

/-! ## Concrete inputs used by witnesses and counterexamples -/

/-- Two retained rows whose extraction order and sorted order disagree, both
matching the team substring. -/
def exTable : List (List String) :=
  [["2", "Capitals", "10", "5", "9"], ["1", "Caps", "10", "7", "8"]]

def rowCaps : Row := ⟨some 1, "Caps", some 10, some 7, ["1", "Caps", "10", "7", "8"]⟩

def rowCapitals : Row :=
  ⟨some 2, "Capitals", some 10, some 5, ["2", "Capitals", "10", "5", "9"]⟩

/-- Monday 2025-12-29 18:05 local time; its ISO week is 2026-W01, an ISO
week 1 containing days of the prior calendar year. -/
def dtMonA : DT := ⟨2025, 12, 29, 18, 5⟩

/-- Thursday 2026-01-01 09:30, in the same ISO week as `dtMonA`. -/
def dtThuB : DT := ⟨2026, 1, 1, 9, 30⟩

/-- Monday 2026-01-05 18:00, in ISO week 2026-W02. -/
def dtMonC : DT := ⟨2026, 1, 5, 18, 0⟩

/-- Tuesday 2025-12-30 18:05, outside the posting window. -/
def dtTueD : DT := ⟨2025, 12, 30, 18, 5⟩

/-- A run inside the window whose publisher always fails. -/
def envPubFail : Env := ⟨dtMonA, none, .ok (some exTable), fun _ => .error ()⟩

/-- A run inside the window, a state file with one extra field, a page with
no table, and a publisher that always succeeds. -/
def envPubOk : Env :=
  ⟨dtMonA, some (.ok (Json.obj [("extra", Json.num 7)])), .ok none, fun _ => .ok ()⟩
theorem digitVal_digitChar (d : Nat) (h : d < 10) : digitVal (digitChar d) = d := by
  interval_cases d <;> rfl

theorem digitChar_ne_dash (d : Nat) (h : d < 10) : digitChar d ≠ '-' := by
  interval_cases d <;> decide

theorem parseNat_snoc (l : List Char) (c : Char) :
    parseNatChars (l ++ [c]) = 10 * parseNatChars l + digitVal c := by
  simp [parseNatChars, List.foldl_append]

theorem mem_natDecAux (fuel n : Nat) (c : Char) (hc : c ∈ natDecAux fuel n) :
    ∃ d, d < 10 ∧ c = digitChar d := by
  induction fuel generalizing n with
  | zero => simp [natDecAux] at hc
  | succ f ih =>
    match n with
    | 0 => simp [natDecAux] at hc
    | m + 1 =>
      simp only [natDecAux, List.mem_cons] at hc
      rcases hc with h | h
      · exact ⟨(m + 1) % 10, Nat.mod_lt _ (by norm_num), h⟩
      · exact ih _ h

theorem parseNat_natDecAux (fuel : Nat) :
    ∀ n, n ≤ fuel → parseNatChars ((natDecAux fuel n).reverse) = n := by
  induction fuel with
  | zero =>
    intro n h
    interval_cases n
    rfl
  | succ f ih =>
    intro n h
    match n with
    | 0 => rfl
    | m + 1 =>
      have hdiv : (m + 1) / 10 ≤ f := by
        have := Nat.div_lt_self (Nat.succ_pos m) (by norm_num : 1 < 10)
        omega
      simp only [natDecAux, List.reverse_cons]
      rw [parseNat_snoc, ih _ hdiv, digitVal_digitChar _ (Nat.mod_lt _ (by norm_num))]
      omega

theorem parseNat_natDec (n : Nat) : parseNatChars (natDec n).data = n := by
  unfold natDec
  split
  · simp_all [parseNatChars, digitVal]
  · exact parseNat_natDecAux n n (Nat.le_refl n)

theorem natDec_no_dash (n : Nat) (c : Char) (hc : c ∈ (natDec n).data) : c ≠ '-' := by
  unfold natDec at hc
  split at hc
  · simp at hc
    simp [hc]
  · simp only [List.mem_reverse] at hc
    obtain ⟨d, hd, rfl⟩ := mem_natDecAux n n c hc
    exact digitChar_ne_dash d hd

theorem parseInt_of_no_dash (l : List Char) (h : ∀ c ∈ l, c ≠ '-') :
    parseIntChars l = (parseNatChars l : Int) := by
  unfold parseIntChars
  split
  · exact absurd rfl (h '-' (by simp))
  · rfl

theorem parseInt_intDec (n : Int) : parseIntChars (intDec n).data = n := by
  unfold intDec
  split
  · rename_i hneg
    have hdata : ("-" ++ natDec (-n).toNat).data = '-' :: (natDec (-n).toNat).data := rfl
    rw [hdata]
    show -(parseNatChars (natDec (-n).toNat).data : Int) = n
    rw [parseNat_natDec]
    have : ((-n).toNat : Int) = -n := Int.toNat_of_nonneg (by omega)
    omega
  · rename_i hpos
    rw [parseInt_of_no_dash _ (natDec_no_dash n.toNat), parseNat_natDec]
    have : (n.toNat : Int) = n := Int.toNat_of_nonneg (by omega)
    omega

theorem parseInt_pad2 (n : Int) : parseIntChars (pad2 n).data = n := by
  unfold pad2
  split
  · rename_i hb
    obtain ⟨h0, h10⟩ := hb
    interval_cases n <;> decide
  · exact parseInt_intDec n

theorem pad2_inj_succ (n : Int) : pad2 n ≠ pad2 (n + 1) := by
  intro h
  have := congrArg (fun s => parseIntChars s.data) h
  simp only [parseInt_pad2] at this
  omega

/-! ## Helper lemmas -/

theorem strDataAppend (a b : String) : (a ++ b).data = a.data ++ b.data := by
  cases a
  cases b
  rfl

theorem strAppendCancelLeft (a b c : String) (h : a ++ b = a ++ c) : b = c := by
  have hd := congrArg String.data h
  rw [strDataAppend, strDataAppend] at hd
  have hbc := List.append_cancel_left hd
  cases b
  cases c
  exact congrArg String.mk hbc

theorem mem_insertRow (a r : Row) (l : List Row) :
    a ∈ insertRow r l ↔ a = r ∨ a ∈ l := by
  induction l with
  | nil => simp [insertRow]
  | cons x xs ih =>
    unfold insertRow
    split
    · simp
    · simp only [List.mem_cons, ih]
      tauto

theorem mem_sortRows (a : Row) (l : List Row) : a ∈ sortRows l ↔ a ∈ l := by
  induction l with
  | nil => simp [sortRows]
  | cons x xs ih =>
    show a ∈ insertRow x (sortRows xs) ↔ _
    rw [mem_insertRow]
    simp [ih, eq_comm]

theorem mem_extractRows (trs : List (List String)) (r : Row)
    (h : r ∈ extractRows trs) :
    (∃ cells ∈ trs, r = parseRow cells) ∧ r.team ≠ "" ∧ r.pos ≠ none := by
  unfold extractRows at h
  rw [List.mem_filterMap] at h
  obtain ⟨cells, hmem, heq⟩ := h
  split at heq
  · exact absurd heq (by simp)
  · split at heq
    · rename_i hguard
      cases heq
      exact ⟨⟨cells, hmem, rfl⟩, hguard⟩
    · exact absurd heq (by simp)

theorem lookupJ_setKeyJ_self (l : List (String × Json)) (k : String) (v : Json) :
    lookupJ (setKeyJ l k v) k = some v := by
  induction l with
  | nil => simp [setKeyJ, lookupJ]
  | cons p rest ih =>
    obtain ⟨a, b⟩ := p
    unfold setKeyJ
    split
    · rename_i hk
      simp only [lookupJ]
      rw [if_pos hk]
    · rename_i hk
      simp only [lookupJ]
      rw [if_neg hk]
      exact ih

theorem lookupJ_setKeyJ_ne (l : List (String × Json)) (k k' : String) (v : Json)
    (h : k' ≠ k) : lookupJ (setKeyJ l k v) k' = lookupJ l k' := by
  induction l with
  | nil =>
    have hne : ¬((k == k') = true) := by
      simp
      exact fun e => h e.symm
    simp only [setKeyJ, lookupJ]
    rw [if_neg hne]
  | cons p rest ih =>
    obtain ⟨a, b⟩ := p
    unfold setKeyJ
    split
    · rename_i hk
      have ha : a = k := by simpa using hk
      have hne : ¬((a == k') = true) := by
        simp [ha]
        exact fun e => h e.symm
      simp only [lookupJ]
      rw [if_neg hne, if_neg hne]
    · simp only [lookupJ]
      split
      · rfl
      · exact ih

theorem lookupJ_append_ne (l : List (String × Json)) (k k' : String) (v : Json)
    (h : k' ≠ k) : lookupJ (l ++ [(k, v)]) k' = lookupJ l k' := by
  induction l with
  | nil =>
    have hne : ¬((k == k') = true) := by
      simp
      exact fun e => h e.symm
    simp only [List.nil_append, lookupJ]
    rw [if_neg hne]
  | cons p rest ih =>
    obtain ⟨a, b⟩ := p
    simp only [List.cons_append, lookupJ]
    split
    · rfl
    · exact ih

theorem lookupJ_setdefaultJ_ne (l : List (String × Json)) (k k' : String) (v : Json)
    (h : k' ≠ k) : lookupJ (setdefaultJ l k v) k' = lookupJ l k' := by
  unfold setdefaultJ
  split
  · rfl
  · exact lookupJ_append_ne l k k' v h

theorem lookupJ_append_self (l : List (String × Json)) (k : String) (v : Json)
    (h : lookupJ l k = none) : lookupJ (l ++ [(k, v)]) k = some v := by
  induction l with
  | nil => simp [lookupJ]
  | cons p rest ih =>
    obtain ⟨a, b⟩ := p
    simp only [lookupJ] at h
    simp only [List.cons_append, lookupJ]
    split
    · rename_i hk
      rw [if_pos hk] at h
      exact absurd h (by simp)
    · rename_i hk
      rw [if_neg hk] at h
      exact ih h

theorem lookupJ_setdefaultJ_self (l : List (String × Json)) (k : String) (v : Json) :
    (lookupJ (setdefaultJ l k v) k).isSome = true := by
  unfold setdefaultJ
  split
  · assumption
  · rename_i habs
    have hnone : lookupJ l k = none := by
      cases hh : lookupJ l k
      · rfl
      · exact absurd (by simp [hh]) habs
    rw [lookupJ_append_self l k v hnone]
    rfl

theorem parseRow_pts_spec (cells : List String) :
    (parseRow cells).pts = specPoints cells := by
  unfold parseRow specPoints
  have hints : (cells.map to_int).filterMap id = cells.filterMap to_int := by
    induction cells with
    | nil => rfl
    | cons c cs ih =>
      simp only [List.map_cons, List.filterMap_cons]
      cases to_int c <;> simp [ih]
  simp only [hints]
  by_cases h2 : 2 ≤ (cells.filterMap to_int).length
  · rw [if_pos h2, if_pos h2]
  · rw [if_neg h2, if_neg h2]
    match hl : cells.filterMap to_int with
    | [] => simp
    | [a] => simp
    | a :: b :: t =>
      exact absurd (by simp [hl]) h2

/-! ## The claims -/

/-- Claim C1, as the spec states it, is false on the code: on `exTable` the
extraction-order first match is the Capitals row, but `scrape_snl_table`
scans for the team only after sorting by position and returns the Caps row. -/
theorem claim_C1_counterexample :
    (scrape_snl_table (some exTable)).2 = some rowCaps ∧
    specHighlightPreSort (some exTable) = some rowCapitals ∧
    (scrape_snl_table (some exTable)).2 ≠ specHighlightPreSort (some exTable) :=
  ⟨by decide, by decide, by decide⟩

/-- Claim C1 (amended): for every parsed table, the highlighted row is the
first row of the *sorted* standings output whose team name case-insensitively
contains the target substring, and is absent when no row matches. -/
theorem claim_C1_amended :
    ∀ table, (scrape_snl_table table).2 = (scrape_snl_table table).1.find? capsPred := by
  intro table
  cases table <;> rfl

/-- Claim C2: every row of the standings output carries as `pts` exactly the
spec's points heuristic applied to its raw cells: the second-to-last
integer-parseable cell value when at least two exist, the sole one when
exactly one exists, absent when none does. -/
theorem claim_C2 (table : Option (List (List String))) (r : Row)
    (h : r ∈ (scrape_snl_table table).1) : r.pts = specPoints r.raw := by
  match table with
  | none => exact absurd h (by simp [scrape_snl_table])
  | some trs =>
    have hmem : r ∈ extractRows trs := by
      have := (mem_sortRows r (extractRows trs)).mp h
      exact this
    obtain ⟨⟨cells, _, rfl⟩, _⟩ := mem_extractRows trs r hmem
    exact parseRow_pts_spec cells

theorem claim_C2_witness : rowCapitals.pts = specPoints rowCapitals.raw :=
  claim_C2 (some exTable) rowCapitals (by decide)

/-- Claim C7: every row retained in the standings output has a non-empty
team name and a parsed integer position. -/
theorem claim_C7 (table : Option (List (List String))) (r : Row)
    (h : r ∈ (scrape_snl_table table).1) : r.team ≠ "" ∧ r.pos ≠ none := by
  match table with
  | none => exact absurd h (by simp [scrape_snl_table])
  | some trs =>
    have hmem : r ∈ extractRows trs := (mem_sortRows r (extractRows trs)).mp h
    exact (mem_extractRows trs r hmem).2

theorem claim_C7_witness : rowCaps.team ≠ "" ∧ rowCaps.pos ≠ none :=
  claim_C7 (some exTable) rowCaps (by decide)

/-- Claim C3: timestamps with the same ISO (year, week) pair — including
pairs that straddle a calendar-year boundary — get the same period key, and
timestamps in consecutive ISO weeks N and N + 1 get different keys. -/
theorem claim_C3 (t1 t2 : DT) :
    (isoYW t1 = isoYW t2 → current_iso_week_key t1 = current_iso_week_key t2) ∧
    (∀ Y N : Int, isoYW t1 = (Y, N) → isoYW t2 = (Y, N + 1) →
      current_iso_week_key t1 ≠ current_iso_week_key t2) := by
  constructor
  · intro h
    unfold current_iso_week_key
    rw [h]
  · intro Y N h1 h2 hk
    unfold current_iso_week_key at hk
    rw [h1, h2] at hk
    rw [String.append_assoc, String.append_assoc] at hk
    have h' := strAppendCancelLeft ("-W") (pad2 N) (pad2 (N + 1))
      (strAppendCancelLeft (intDec Y) _ _ hk)
    exact pad2_inj_succ N h'

theorem claim_C3_witness :
    current_iso_week_key dtMonA = current_iso_week_key dtThuB ∧
    current_iso_week_key dtMonA ≠ current_iso_week_key dtMonC :=
  ⟨(claim_C3 dtMonA dtThuB).1 (by decide),
   (claim_C3 dtMonA dtMonC).2 2026 1 (by decide) (by decide)⟩

/-- Claim C4: `should_post_now` is true exactly on the configured weekly
window — Monday (weekday 0), hour 18, minute in the inclusive range 0–10 —
of the supplied local wall-clock timestamp. -/
theorem claim_C4 (t : DT) : should_post_now t = true ↔ inWeeklyWindow t := by
  unfold should_post_now inWeeklyWindow
  by_cases h1 : weekdayDT t = POST_DAY
  · by_cases h2 : t.hour = POST_HOUR
    · by_cases h3 : 0 ≤ t.minute ∧ t.minute ≤ POST_MINUTE_MAX
      · rw [if_neg (fun hn => hn h1), if_neg (fun hn => hn h2), if_neg (not_not_intro h3)]
        exact iff_of_true rfl ⟨h1, h2, h3.1, h3.2⟩
      · rw [if_neg (fun hn => hn h1), if_neg (fun hn => hn h2), if_pos h3]
        exact iff_of_false (by simp) (fun hw => h3 ⟨hw.2.2.1, hw.2.2.2⟩)
    · rw [if_neg (fun hn => hn h1), if_pos h2]
      exact iff_of_false (by simp) (fun hw => h2 hw.2.1)
  · rw [if_pos h1]
    exact iff_of_false (by simp) (fun hw => h1 hw.1)

theorem claim_C4_witness :
    should_post_now dtMonA = true ∧ should_post_now dtTueD = false := by
  constructor
  · exact (claim_C4 dtMonA).mpr ⟨by decide, by decide, by decide, by decide⟩
  · cases hb : should_post_now dtTueD
    · rfl
    · exact absurd ((claim_C4 dtTueD).mp hb) (fun hw => absurd hw.1 (by decide))

/-- Claim C8, as the spec states it, is false on the code: `to_int` removes
every `+` sign before matching, so `"1+2"` — not an integer after stripping
a leading sign — still parses, as 12. -/
theorem claim_C8_counterexample :
    to_int "1+2" = some 12 ∧ spec_to_int_leading "1+2" = none :=
  ⟨by decide, by decide⟩

/-- Claim C8 (amended): a cell counts as an integer when, after removing
every `+` sign anywhere in the text and stripping whitespace, the remainder
matches `-?\d+`; so a leading `+` is tolerated, and a `+` embedded
mid-string is likewise removed rather than failing the parse. -/
theorem claim_C8_amended (s : String) :
    to_int ("+" ++ s) = to_int s ∧ to_int s = to_int (stripPlus s) := by
  constructor
  · have hstrip : stripPlus ("+" ++ s) = stripPlus s := by
      cases s
      rfl
    unfold to_int
    rw [hstrip]
  · have hstrip : stripPlus (stripPlus s) = stripPlus s := by
      unfold stripPlus
      cases s with
      | mk d =>
        show (⟨List.filter _ (List.filter _ d)⟩ : String) = _
        rw [List.filter_filter]
        simp
    unfold to_int
    rw [hstrip]

/-- Claim C9: with empty standings the formatter returns exactly the title
line followed by the single no-data line, for every highlighted-row
argument, period key and timestamp — no highlight section, no listing. -/
theorem claim_C9 (caps_row : Option Row) (week_key : String) (now : DT) :
    format_weekly_post [] caps_row week_key now =
      titleLine week_key now ++ "\nNo table data detected this week." := rfl

/-- Claim C5: when a run reaches the publish step and the publisher fails,
the run aborts with the failure surfaced and nothing is written to the
state file — the save runs only after a successful publish. -/
theorem claim_C5 (env : Env) (st : List (String × Json))
    (tbl : Option (List (List String)))
    (hgate : should_post_now env.now = true)
    (hload : load_state env.stateFile = .ok st)
    (hdup : alreadyPosted st (current_iso_week_key env.now) = false)
    (hfetch : env.fetch = .ok tbl)
    (hpub : ∀ m, env.publish m = .error ()) :
    (Bot.main env).result = .error () ∧ (Bot.main env).saved = none := by
  unfold Bot.main
  rw [hgate, if_neg (by simp)]
  rw [hload]
  simp only [hdup, Bool.false_eq_true, if_false]
  rw [hfetch]
  simp only [hpub]
  constructor <;> trivial

theorem claim_C5_witness :
    (Bot.main envPubFail).result = .error () ∧ (Bot.main envPubFail).saved = none :=
  claim_C5 envPubFail defaultStateJ (some exTable) (by decide) rfl (by decide) rfl
    (fun _ => rfl)

/-- Claim C6, as the spec states it, is false on the code: a state file
whose content is valid JSON but not an object — here the document `[]` —
passes the guarded `json.load`, and the unguarded `setdefault` call then
raises, failing the run instead of returning the default state. -/
theorem claim_C6_counterexample :
    load_state (some (.ok (Json.arr []))) = .error () := rfl

/-- Claim C6 (amended): for a state file that is missing, that fails to
parse as JSON, or whose content parses to a JSON object, `load_state` never
fails: it returns a record carrying a `last_posted_week` field, and on the
read/parse-failure cases it returns exactly the default state with the
empty-string key.  (Content parsing to a non-object JSON value instead
raises and fails the run.) -/
theorem claim_C6_amended (fc : Option (Except Unit Json))
    (h : stateFileWellShaped fc) :
    (∃ d, load_state fc = .ok d ∧ (lookupJ d "last_posted_week").isSome = true) ∧
    ((fc = none ∨ ∃ u : Unit, fc = some (.error u)) →
      load_state fc = .ok defaultStateJ) := by
  match fc with
  | none => exact ⟨⟨defaultStateJ, rfl, rfl⟩, fun _ => rfl⟩
  | some (.error u) => exact ⟨⟨defaultStateJ, rfl, rfl⟩, fun _ => rfl⟩
  | some (.ok j) =>
    obtain ⟨l, rfl⟩ := h j rfl
    refine ⟨⟨setdefaultJ l "last_posted_week" (Json.str ""), rfl, ?_⟩, ?_⟩
    · exact lookupJ_setdefaultJ_self l "last_posted_week" (Json.str "")
    · rintro (hc | ⟨u, hc⟩) <;> exact absurd hc (by simp)

theorem claim_C6_witness :
    (∃ d, load_state (some (.ok (Json.obj [("k", Json.num 3)]))) = .ok d ∧
      (lookupJ d "last_posted_week").isSome = true) ∧
    (((some (.ok (Json.obj [("k", Json.num 3)])) : Option (Except Unit Json)) = none ∨
      ∃ u : Unit, (some (.ok (Json.obj [("k", Json.num 3)])) : Option (Except Unit Json)) =
        some (Except.error u)) →
      load_state (some (.ok (Json.obj [("k", Json.num 3)]))) = .ok defaultStateJ) :=
  claim_C6_amended (some (.ok (Json.obj [("k", Json.num 3)])))
    (fun j hj => by cases hj; exact ⟨_, rfl⟩)

/-- Claim C10: a successful run's load-then-save round trip preserves every
persisted field other than `last_posted_week`: the saved record maps
`last_posted_week` to the run's period key and agrees with the loaded
document on every other key. -/
theorem claim_C10 (env : Env) (l : List (String × Json))
    (tbl : Option (List (List String)))
    (hfile : env.stateFile = some (.ok (Json.obj l)))
    (hgate : should_post_now env.now = true)
    (hdup : alreadyPosted (setdefaultJ l "last_posted_week" (Json.str ""))
      (current_iso_week_key env.now) = false)
    (hfetch : env.fetch = .ok tbl)
    (hpub : ∀ m, env.publish m = .ok ()) :
    ∃ d, (Bot.main env).saved = some d ∧
      lookupJ d "last_posted_week" = some (Json.str (current_iso_week_key env.now)) ∧
      ∀ k, k ≠ "last_posted_week" → lookupJ d k = lookupJ l k := by
  unfold Bot.main
  rw [hgate, if_neg (by simp)]
  rw [hfile]
  simp only [load_state]
  simp only [hdup, Bool.false_eq_true, if_false]
  rw [hfetch]
  simp only [hpub]
  refine ⟨setKeyJ (setdefaultJ l "last_posted_week" (Json.str "")) "last_posted_week"
    (Json.str (current_iso_week_key env.now)), rfl, ?_, ?_⟩
  · exact lookupJ_setKeyJ_self _ _ _
  · intro k hk
    rw [lookupJ_setKeyJ_ne _ _ _ _ hk, lookupJ_setdefaultJ_ne _ _ _ _ hk]

theorem claim_C10_witness :
    ∃ d, (Bot.main envPubOk).saved = some d ∧
      lookupJ d "last_posted_week" = some (Json.str (current_iso_week_key dtMonA)) ∧
      ∀ k, k ≠ "last_posted_week" → lookupJ d k = lookupJ [("extra", Json.num 7)] k :=
  claim_C10 envPubOk [("extra", Json.num 7)] none rfl (by decide) (by decide) rfl
    (fun _ => rfl)
